import Mathlib

/-!
# Rule Engine and Tabular Aggregation Pipeline — verification development

A shallow embedding of the HSBC Enterprise Dashboard's rule engine and of the
frontend components under `src/frontend` and `src/unnamed`, together with
theorems settling the specification's claims.

The repository's `src/` tree contains only the React frontend; the Python
backend implementing the rule engine (RuleStore, aggregation, cleaning) is not
present.  Definitions for those components are therefore modelled from the
specification and carry a doc comment starting `Modelled from the spec:`.
Frontend definitions (`aggregationFunctions`, `toggleRuleSelection`,
`filteredData`, `processedData`) are translated directly from the TypeScript
source.
-/

/-! ## Generic association-list helpers

Rows, rule registries and JavaScript objects are all represented as ordered
association lists from string keys to values. `setEntry` overwrites the first
binding of a key in place, or appends a new binding — the semantics of both a
JS object property assignment and a map insert. -/

/-- Overwrite the first binding of `k` in `l` with `v`, or append `(k, v)`. -/
def setEntry {α : Type} : List (String × α) → String → α → List (String × α)
  | [], k, v => [(k, v)]
  | (k0, v0) :: t, k, v =>
      if k0 = k then (k0, v) :: t else (k0, v0) :: setEntry t k v

/-- Look up the value bound to key `k` (first binding wins). -/
def alookup {α : Type} : List (String × α) → String → Option α
  | [], _ => none
  | (k0, v0) :: t, k => if k0 = k then some v0 else alookup t k

/-- The keys of an association list, in order. -/
def keysOf {α : Type} (l : List (String × α)) : List String :=
  l.map Prod.fst

/-- The distinct elements of a list in first-seen order. -/
def firstSeenList {α : Type} [DecidableEq α] (l : List α) : List α :=
  l.foldl (fun acc v => if v ∈ acc then acc else acc ++ [v]) []

theorem alookup_setEntry_self {α : Type} (l : List (String × α)) (k : String) (v : α) :
    alookup (setEntry l k v) k = some v := by
  induction l with
  | nil => simp [setEntry, alookup]
  | cons hd t ih =>
      obtain ⟨k0, v0⟩ := hd
      by_cases h : k0 = k
      · simp [setEntry, alookup, h]
      · simp [setEntry, alookup, h, ih]

theorem alookup_setEntry_ne {α : Type} (l : List (String × α)) (k k' : String) (v : α)
    (hne : k' ≠ k) : alookup (setEntry l k v) k' = alookup l k' := by
  have h2 : k ≠ k' := fun hh => hne hh.symm
  induction l with
  | nil => simp [setEntry, alookup, h2]
  | cons hd t ih =>
      obtain ⟨k0, v0⟩ := hd
      by_cases h0 : k0 = k
      · subst h0
        simp [setEntry, alookup, h2]
      · simp [setEntry, alookup, h0, ih]

theorem setEntry_eq_of_alookup {α : Type} (l : List (String × α)) (k : String) (v : α)
    (h : alookup l k = some v) : setEntry l k v = l := by
  induction l with
  | nil => simp [alookup] at h
  | cons hd t ih =>
      obtain ⟨k0, v0⟩ := hd
      by_cases h0 : k0 = k
      · simp [alookup, h0] at h
        simp [setEntry, h0, h]
      · simp [alookup, h0] at h
        simp [setEntry, h0, ih h]

theorem alookup_of_nodup_mem {α : Type} (l : List (String × α)) (k : String) (v : α)
    (hnd : (keysOf l).Nodup) (hmem : (k, v) ∈ l) : alookup l k = some v := by
  induction l with
  | nil => simp at hmem
  | cons hd t ih =>
      obtain ⟨k0, v0⟩ := hd
      rw [show keysOf ((k0, v0) :: t) = k0 :: keysOf t from rfl, List.nodup_cons] at hnd
      rcases List.mem_cons.mp hmem with heq | hmem'
      · injection heq with h1 h2
        simp [alookup, h1, h2]
      · have hk : k0 ≠ k := by
          intro hk0
          apply hnd.1
          rw [hk0]
          exact List.mem_map.mpr ⟨(k, v), hmem', rfl⟩
        simp [alookup, hk, ih hnd.2 hmem']

/-! ## Engine data model

Modelled from the spec: a Dataset is an ordered sequence of rows, each row a
mapping from column name to value (spec §3).  Values are null, numbers
(embedded as rationals) or strings. -/

/-- A cell value of the tabular engine. -/
inductive Value : Type
  | vNull : Value
  | vNum : ℚ → Value
  | vStr : String → Value
  deriving DecidableEq, Repr

/-- A row: a mapping from column name to value. -/
abbrev Row : Type := List (String × Value)

/-- The value of column `c` in row `r`; an absent column reads as null. -/
def lookupVal (r : Row) (c : String) : Value :=
  (alookup r c).getD .vNull

/-- The numeric values in a list of cells. -/
def numsOf (vs : List Value) : List ℚ :=
  vs.filterMap fun v => match v with
    | .vNum q => some q
    | _ => none

/-- The non-null values in a list of cells. -/
def nonNullVals (vs : List Value) : List Value :=
  vs.filter (fun v => v ≠ .vNull)

/-- The values of column `c` down a list of rows, in row order. -/
def colVals (rows : List Row) (c : String) : List Value :=
  rows.map (fun r => lookupVal r c)

/-! ## AggregationEngine — GroupBy

Modelled from the spec (§4.5 GroupBy): partition rows by the tuple of
`group_by` column values, output groups in first-seen order of the key tuple;
for each value column and requested function compute the aggregate; output
column naming `{value_column}_{function}`.  `std` (sample standard deviation)
is not exactly representable over ℚ and is reported as null here; no claim
exercises it. -/

/-- GroupBy configuration: `group_by` columns and per-column aggregation
function lists (spec §3, `AggregationConfig.GroupBy`). -/
structure GroupByConfig : Type where
  group_by : List String
  aggregations : List (String × List String)
  deriving DecidableEq, Repr

/-- Apply one named aggregation function to the list of cell values of a
group (spec §4.5): `sum`, arithmetic `mean`, `median` (average of the two
middle values on even count), `min`, `max`, `count` (non-null count),
`var` (sample variance, divisor n−1, null when n<2), `first`/`last` (by
input row order), `unique_count` (distinct non-null values). -/
def aggApply (fn : String) (vs : List Value) : Value :=
  let nums := numsOf vs
  match fn with
  | "sum" => .vNum nums.sum
  | "count" => .vNum ((nonNullVals vs).length : ℚ)
  | "mean" =>
      if nums.length = 0 then .vNull else .vNum (nums.sum / (nums.length : ℚ))
  | "min" =>
      match nums with
      | [] => .vNull
      | x :: xs => .vNum (xs.foldl min x)
  | "max" =>
      match nums with
      | [] => .vNull
      | x :: xs => .vNum (xs.foldl max x)
  | "median" =>
      let s := List.insertionSort (· ≤ ·) nums
      let n := s.length
      if n = 0 then .vNull
      else if n % 2 = 1 then .vNum (s.getD (n / 2) 0)
      else .vNum ((s.getD (n / 2 - 1) 0 + s.getD (n / 2) 0) / 2)
  | "var" =>
      let n := nums.length
      if n < 2 then .vNull
      else
        let μ := nums.sum / (n : ℚ)
        .vNum ((nums.map (fun x => (x - μ) * (x - μ))).sum / ((n : ℚ) - 1))
  | "first" => (vs.head?).getD .vNull
  | "last" => (vs.getLast?).getD .vNull
  | "unique_count" => .vNum (((firstSeenList (nonNullVals vs)).length : ℚ))
  | _ => .vNull

/-- The group key of a row: the tuple of its `group_by` column values. -/
def keyOf (cols : List String) (r : Row) : List Value :=
  cols.map (fun c => lookupVal r c)

/-- Modelled from the spec: GroupBy aggregation (§4.5, Scenario A).  Groups
appear in first-seen order of the key tuple; each output row carries the
group-key columns followed by one `{value_column}_{function}` column per
requested function. -/
def groupByAgg (cfg : GroupByConfig) (rows : List Row) : List Row :=
  (firstSeenList (rows.map (keyOf cfg.group_by))).map fun key =>
    let grp := rows.filter (fun r => keyOf cfg.group_by r = key)
    (cfg.group_by.zip key) ++
      (cfg.aggregations.map fun cf =>
        cf.2.map fun fn =>
          (cf.1 ++ "_" ++ fn, aggApply fn (grp.map (fun r => lookupVal r cf.1)))).flatten

/-- The three-row dataset of Scenario A (spec §8). -/
def scenarioARows : List Row :=
  [ [("Account", .vStr "A1"), ("Type", .vStr "CR"), ("Amount", .vNum 100)],
    [("Account", .vStr "A1"), ("Type", .vStr "DR"), ("Amount", .vNum 40)],
    [("Account", .vStr "A2"), ("Type", .vStr "CR"), ("Amount", .vNum 50)] ]

/-- C1: For the three-row Scenario A dataset and GroupBy config
`group_by=["Account"], aggregations={"Amount":["sum","count"]}`, the GroupBy
aggregation returns exactly the two rows
`[{Account:"A1",Amount_sum:140,Amount_count:2},{Account:"A2",Amount_sum:50,Amount_count:1}]`,
in first-seen order of the group key. -/
theorem groupByAgg_scenarioA :
    groupByAgg ⟨["Account"], [("Amount", ["sum", "count"])]⟩ scenarioARows =
      [ [("Account", .vStr "A1"), ("Amount_sum", .vNum 140), ("Amount_count", .vNum 2)],
        [("Account", .vStr "A2"), ("Amount_sum", .vNum 50), ("Amount_count", .vNum 1)] ] := by
  simp +decide only [groupByAgg, scenarioARows, firstSeenList, keyOf, lookupVal, alookup, aggApply,
    numsOf, nonNullVals, List.foldl, List.map, List.filter, List.filterMap, List.zip, List.flatten,
    List.sum, List.foldr, List.length, List.zipWith, List.append]
  norm_num
  exact ⟨rfl, rfl⟩

/-! ## RuleStore

Modelled from the spec (§4.2): a process-wide registry of named, typed rule
definitions, with `create` (insert-or-overwrite, last-write-wins), `get`,
`export` (all rules grouped by type) and `import` (validate every rule's
config shape against its declared type before merging; any single invalid
rule rejects the entire import).  The registry is modelled as the three
name→config maps; `created_at` stamps are not part of the export document
(§6 export format) and are omitted. -/

/-- A rule's type (spec §3). -/
inductive RuleType : Type
  | normalization
  | aggregation
  | flag
  deriving DecidableEq, Repr

/-- Aggregation rule configuration, a tagged variant (spec §3). -/
inductive AggregationConfig : Type
  | groupBy (cfg : GroupByConfig)
  | timeSeries (date_column value_column frequency : String)
  | pivot (index columns values : List String) (agg_fn : String)
  | summaryStats (columns : List String)
  | pattern (name : String)
  deriving DecidableEq, Repr

/-- A rule configuration, a variant per rule type (spec §3): normalization
maps source columns to transform kinds; flag is a predicate rule. -/
inductive RuleConfig : Type
  | normCfg (columnTransforms : List (String × String))
  | aggCfg (cfg : AggregationConfig)
  | flagCfg (column operator threshold reason : String)
  deriving DecidableEq, Repr

/-- A config's shape is valid for a declared rule type when its variant
matches the type (spec §4.2, import validation; §9 tagged-variant note). -/
def configValid : RuleType → RuleConfig → Bool
  | .normalization, .normCfg _ => true
  | .aggregation, .aggCfg _ => true
  | .flag, .flagCfg _ _ _ _ => true
  | _, _ => false

/-- The rule registry: one name→config map per rule type. -/
structure RuleStore : Type where
  normalization : List (String × RuleConfig)
  aggregation : List (String × RuleConfig)
  flag : List (String × RuleConfig)
  deriving DecidableEq, Repr

/-- The export/import document: all rules grouped by type
(§6: `{normalization: {name: config}, aggregation: {...}, flag: {...}}`). -/
structure RuleDocument : Type where
  normalization : List (String × RuleConfig)
  aggregation : List (String × RuleConfig)
  flag : List (String × RuleConfig)
  deriving DecidableEq, Repr

/-- Modelled from the spec: `create(type, name, config)` inserts or
overwrites, last-write-wins (§4.2); no `ConflictError` on name reuse (§7). -/
def createRule (s : RuleStore) (t : RuleType) (name : String) (cfg : RuleConfig) : RuleStore :=
  match t with
  | .normalization => { s with normalization := setEntry s.normalization name cfg }
  | .aggregation => { s with aggregation := setEntry s.aggregation name cfg }
  | .flag => { s with flag := setEntry s.flag name cfg }

/-- Modelled from the spec: `get(type, name)` (§4.2). -/
def getRule (s : RuleStore) (t : RuleType) (name : String) : Option RuleConfig :=
  match t with
  | .normalization => alookup s.normalization name
  | .aggregation => alookup s.aggregation name
  | .flag => alookup s.flag name

/-- Modelled from the spec: `export()` serializes all rules grouped by type
(§4.2, §6). -/
def exportRules (s : RuleStore) : RuleDocument :=
  ⟨s.normalization, s.aggregation, s.flag⟩

/-- Every rule in the document has a config shape valid for its declared
type (§4.2 import validation). -/
def docValid (d : RuleDocument) : Bool :=
  d.normalization.all (fun p => configValid .normalization p.2) &&
  d.aggregation.all (fun p => configValid .aggregation p.2) &&
  d.flag.all (fun p => configValid .flag p.2)

/-- Merge one document section into a registry section, last-write-wins. -/
def mergeSection (s : List (String × RuleConfig)) (d : List (String × RuleConfig)) :
    List (String × RuleConfig) :=
  d.foldl (fun acc p => setEntry acc p.1 p.2) s

/-- Modelled from the spec: `import(document)` validates every rule's config
shape against its declared type before merging; on any single invalid rule
the entire import is rejected (all-or-nothing), no partial merge (§4.2, §7
`ImportError`). -/
def importRules (s : RuleStore) (d : RuleDocument) : Except String RuleStore :=
  if docValid d then
    .ok ⟨mergeSection s.normalization d.normalization,
         mergeSection s.aggregation d.aggregation,
         mergeSection s.flag d.flag⟩
  else
    .error "ImportError"

/-- The registry resulting from an import call: the merged registry on
success, the unchanged registry when the import is rejected. -/
def importRulesApply (s : RuleStore) (d : RuleDocument) : RuleStore :=
  match importRules s d with
  | .ok s' => s'
  | .error _ => s

theorem mergeSection_eq_of_mem (l : List (String × RuleConfig)) :
    ∀ d : List (String × RuleConfig), (∀ p ∈ d, alookup l p.1 = some p.2) →
      mergeSection l d = l := by
  intro d
  induction d with
  | nil => intro _; rfl
  | cons p d ih =>
      intro h
      have hstep : setEntry l p.1 p.2 = l :=
        setEntry_eq_of_alookup l p.1 p.2 (h p (List.mem_cons_self p d))
      calc mergeSection l (p :: d)
          = mergeSection (setEntry l p.1 p.2) d := rfl
        _ = mergeSection l d := by rw [hstep]
        _ = l := ih (fun q hq => h q (List.mem_cons_of_mem p hq))

theorem mergeSection_self (l : List (String × RuleConfig)) (hnd : (keysOf l).Nodup) :
    mergeSection l l = l :=
  mergeSection_eq_of_mem l l (fun p hp => alookup_of_nodup_mem l p.1 p.2 hnd hp)

/-- C2: For every RuleStore state whose per-type rule names are unique
(spec §3 invariant), importing the document produced by export leaves the
RuleStore contents unchanged: `import(export())` is the identity on the
registry. -/
theorem import_export_roundtrip (s : RuleStore)
    (h1 : (keysOf s.normalization).Nodup) (h2 : (keysOf s.aggregation).Nodup)
    (h3 : (keysOf s.flag).Nodup) :
    importRulesApply s (exportRules s) = s := by
  unfold importRulesApply importRules exportRules
  by_cases h : docValid ⟨s.normalization, s.aggregation, s.flag⟩ = true
  · simp only [h, if_true]
    rw [mergeSection_self _ h1, mergeSection_self _ h2, mergeSection_self _ h3]
  · simp only [h]
    simp

/-- A concrete registry used to witness the import/export round trip. -/
def sampleStore : RuleStore :=
  ⟨[("r1", .normCfg [("Type", "cr_dr_mapping")])],
   [("agg1", .aggCfg (.groupBy ⟨["Account"], [("Amount", ["sum"])]⟩))],
   [("f1", .flagCfg "Amount" "gt" "10000" "large transaction")]⟩

theorem import_export_roundtrip_witness :
    importRulesApply sampleStore (exportRules sampleStore) = sampleStore :=
  import_export_roundtrip sampleStore (by decide) (by decide) (by decide)

/-- C3: For every rule type and name, creating a rule whose (type, name)
pair already exists succeeds and overwrites the stored config
(last-write-wins, no ConflictError): after `create_rule(t,n,cfgA)` followed
by `create_rule(t,n,cfgB)`, `get(t,n)` returns `cfgB`. -/
theorem createRule_lastWriteWins (s : RuleStore) (t : RuleType) (n : String)
    (cA cB : RuleConfig) :
    getRule (createRule (createRule s t n cA) t n cB) t n = some cB := by
  cases t <;> simp [createRule, getRule, alookup_setEntry_self]

/-- C4: For every import document, if any single rule in it has a config
shape invalid for its declared type, the entire import fails with
`ImportError` and the rule registry is exactly what it was before the call
(all-or-nothing, no partial merge). -/
theorem importRules_allOrNothing (s : RuleStore) (d : RuleDocument)
    (h : (∃ p ∈ d.normalization, configValid .normalization p.2 = false) ∨
         (∃ p ∈ d.aggregation, configValid .aggregation p.2 = false) ∨
         (∃ p ∈ d.flag, configValid .flag p.2 = false)) :
    importRules s d = .error "ImportError" ∧ importRulesApply s d = s := by
  have hdv : ¬ docValid d = true := by
    simp only [docValid, Bool.and_eq_true, List.all_eq_true]
    rintro ⟨⟨hn, ha⟩, hf⟩
    rcases h with ⟨p, hp, hv⟩ | ⟨p, hp, hv⟩ | ⟨p, hp, hv⟩
    · exact absurd (hn p hp) (by simp [hv])
    · exact absurd (ha p hp) (by simp [hv])
    · exact absurd (hf p hp) (by simp [hv])
  constructor
  · simp [importRules, hdv]
  · simp [importRulesApply, importRules, hdv]

/-- An import document with a single invalid rule: a flag-shaped config
declared under `normalization`. -/
def badDocument : RuleDocument :=
  ⟨[("bad", .flagCfg "Amount" "gt" "0" "wrong shape")], [], []⟩

theorem importRules_allOrNothing_witness :
    importRules sampleStore badDocument = .error "ImportError" ∧
      importRulesApply sampleStore badDocument = sampleStore :=
  importRules_allOrNothing sampleStore badDocument
    (Or.inl ⟨("bad", .flagCfg "Amount" "gt" "0" "wrong shape"), by decide, by decide⟩)

/-! ## CleaningPipeline

Modelled from the spec (§4.4): missing-value policies `drop`, `fill_mean`
(column mean over non-null values, `TypeError` on a non-numeric column),
`fill_mode` (most frequent non-null value, ties broken first-seen); outlier
policy over numeric columns with Q1/Q3 computed by linear interpolation over
the sorted non-null values and bounds `[Q1 − 1.5·IQR, Q3 + 1.5·IQR]`. -/

/-- Modelled from the spec: `fill_mean` replaces null in column `c` with the
column's mean over non-null values; fails with `TypeError` if applied to a
non-numeric column, i.e. one with a non-null non-numeric value (§4.4). -/
def fillMean (rows : List Row) (c : String) : Except String (List Row) :=
  let present := nonNullVals (colVals rows c)
  if present.all (fun v => match v with | .vNum _ => true | _ => false) then
    let nums := numsOf present
    let fill : Value := if nums.length = 0 then .vNull else .vNum (nums.sum / (nums.length : ℚ))
    .ok (rows.map (fun r => if lookupVal r c = .vNull then setEntry r c fill else r))
  else
    .error "TypeError"

/-- The most frequent non-null value of a list, ties broken by first-seen
order; null when every value is null (§4.4 `fill_mode`). -/
def modeOf (vs : List Value) : Value :=
  let nn := nonNullVals vs
  match firstSeenList nn with
  | [] => .vNull
  | u :: us => us.foldl (fun best v => if nn.count v > nn.count best then v else best) u

/-- Modelled from the spec: `fill_mode` replaces null in column `c` with the
column's most frequent non-null value (§4.4). -/
def fillMode (rows : List Row) (c : String) : List Row :=
  let fill := modeOf (colVals rows c)
  rows.map (fun r => if lookupVal r c = .vNull then setEntry r c fill else r)

/-- Modelled from the spec: `drop` removes any row containing null in a
monitored column (§4.4). -/
def dropNulls (rows : List Row) (cols : List String) : List Row :=
  rows.filter (fun r => cols.all (fun c => lookupVal r c ≠ .vNull))

/-- The `q`-quantile of a list of numbers by linear interpolation over the
sorted values: position `q·(n−1)`, interpolating between the two adjacent
sorted values (§4.4 outliers). -/
def quantileLinear (q : ℚ) (vals : List ℚ) : Option ℚ :=
  match vals with
  | [] => none
  | _ =>
      let s := List.insertionSort (· ≤ ·) vals
      let n := s.length
      let pos : ℚ := q * ((n : ℚ) - 1)
      let i : ℕ := pos.floor.toNat
      let frac : ℚ := pos - (i : ℚ)
      let lo := s.getD i 0
      let hi := s.getD (i + 1) lo
      some (lo + frac * (hi - lo))

/-- The outlier bounds `[Q1 − 1.5·IQR, Q3 + 1.5·IQR]` of a numeric sample
(§4.4). -/
def outlierBounds (vals : List ℚ) : Option (ℚ × ℚ) :=
  match quantileLinear (1/4) vals, quantileLinear (3/4) vals with
  | some q1, some q3 =>
      let iqr := q3 - q1
      some (q1 - 3/2 * iqr, q3 + 3/2 * iqr)
  | _, _ => none

/-- Whether row `r` holds an outlier in monitored column `c`, with bounds
computed from the column's non-null numeric values over all `rows`. -/
def isOutlierIn (rows : List Row) (c : String) (r : Row) : Bool :=
  match outlierBounds (numsOf (nonNullVals (colVals rows c))), lookupVal r c with
  | some (lo, hi), .vNum x => x < lo || hi < x
  | _, _ => false

/-- Modelled from the spec: outlier `remove` drops the entire row containing
an outlier in any monitored numeric column (§4.4). -/
def removeOutliers (rows : List Row) (cols : List String) : List Row :=
  rows.filter (fun r => !(cols.any (fun c => isOutlierIn rows c r)))

/-- C5: For every input dataset and cleaning configuration, the `fill_mean`
and `fill_mode` missing-value policies leave the row count unchanged, and
the `drop` policy and the outlier `remove` policy produce a row count less
than or equal to the input's row count. -/
theorem cleaning_row_counts (rows : List Row) (c : String) (cols : List String) :
    (∀ out, fillMean rows c = .ok out → out.length = rows.length) ∧
    (fillMode rows c).length = rows.length ∧
    (dropNulls rows cols).length ≤ rows.length ∧
    (removeOutliers rows cols).length ≤ rows.length := by
  refine ⟨?_, ?_, ?_, ?_⟩
  · intro out hout
    unfold fillMean at hout
    by_cases h : (nonNullVals (colVals rows c)).all
        (fun v => match v with | .vNum _ => true | _ => false) = true
    · simp only [h, if_true] at hout
      cases hout
      simp
    · simp only [h] at hout
      simp at hout
  · simp [fillMode]
  · exact List.length_filter_le _ _
  · exact List.length_filter_le _ _

/-- Rows used to witness the cleaning row-count invariants: column `a` has a
null to fill and values `1` and `3`. -/
def sampleCleanRows : List Row :=
  [[("a", .vNum 1)], [("a", .vNull)], [("a", .vNum 3)]]

theorem cleaning_row_counts_witness :
    (fillMode sampleCleanRows "a").length = sampleCleanRows.length ∧
    (dropNulls sampleCleanRows ["a"]).length ≤ sampleCleanRows.length ∧
    (removeOutliers sampleCleanRows ["a"]).length ≤ sampleCleanRows.length ∧
    [[("a", Value.vNum 1)], [("a", Value.vNum 2)], [("a", Value.vNum 3)]].length =
      sampleCleanRows.length :=
  ⟨(cleaning_row_counts sampleCleanRows "a" ["a"]).2.1,
   (cleaning_row_counts sampleCleanRows "a" ["a"]).2.2.1,
   (cleaning_row_counts sampleCleanRows "a" ["a"]).2.2.2,
   (cleaning_row_counts sampleCleanRows "a" ["a"]).1
     [[("a", Value.vNum 1)], [("a", Value.vNum 2)], [("a", Value.vNum 3)]]
     (by
       simp +decide only [fillMean, sampleCleanRows, nonNullVals, colVals, lookupVal, alookup,
         numsOf, setEntry, List.map, List.filter, List.filterMap, List.all, List.sum,
         List.foldr, List.length]
       norm_num)⟩

/-- The Scenario C dataset: one numeric column `x` with values
`[10,12,11,13,1000]` (spec §8). -/
def scenarioCRows : List Row :=
  [[("x", .vNum 10)], [("x", .vNum 12)], [("x", .vNum 11)], [("x", .vNum 13)], [("x", .vNum 1000)]]

/-- C6 counterexample: for the column `[10,12,11,13,1000]`, Q3 computed by
linear interpolation over the sorted values is 13, not 12.5 as the claim
states (and hence the upper bound is 16, not 14.25). -/
theorem quantile_scenarioC_q3_not_half :
    quantileLinear (3/4) [10, 12, 11, 13, 1000] = some 13 ∧
      quantileLinear (3/4) [10, 12, 11, 13, 1000] ≠ some (25/2) := by
  have h : quantileLinear (3/4) [10, 12, 11, 13, 1000] = some 13 := by
    norm_num [quantileLinear, List.insertionSort, List.orderedInsert, Rat.floor_def',
      show Int.toNat 3 = 3 from rfl]
  refine ⟨h, ?_⟩
  rw [h]
  intro hc
  have : (13 : ℚ) = 25/2 := Option.some.inj hc
  norm_num at this

/-- C6 (amended): for the numeric column `[10,12,11,13,1000]`, linear
interpolation over the sorted values yields Q1 = 11 and Q3 = 13, hence
IQR = 2 and bounds `[8, 16]`, and outlier removal drops exactly the row
containing 1000 while retaining all other rows. -/
theorem outlier_scenarioC :
    quantileLinear (1/4) [10, 12, 11, 13, 1000] = some 11 ∧
    quantileLinear (3/4) [10, 12, 11, 13, 1000] = some 13 ∧
    outlierBounds [10, 12, 11, 13, 1000] = some (8, 16) ∧
    removeOutliers scenarioCRows ["x"] =
      [[("x", .vNum 10)], [("x", .vNum 12)], [("x", .vNum 11)], [("x", .vNum 13)]] := by
  refine ⟨?_, ?_, ?_, ?_⟩
  · norm_num [quantileLinear, List.insertionSort, List.orderedInsert, Rat.floor_def',
      show Int.toNat 3 = 3 from rfl]
  · norm_num [quantileLinear, List.insertionSort, List.orderedInsert, Rat.floor_def',
      show Int.toNat 3 = 3 from rfl]
  · norm_num [outlierBounds, quantileLinear, List.insertionSort, List.orderedInsert,
      Rat.floor_def', show Int.toNat 3 = 3 from rfl]
  · have hb : outlierBounds (numsOf (nonNullVals (colVals
        [[("x", Value.vNum 10)], [("x", Value.vNum 12)], [("x", Value.vNum 11)],
         [("x", Value.vNum 13)], [("x", Value.vNum 1000)]] "x"))) = some (8, 16) := by
      norm_num [colVals, nonNullVals, numsOf, lookupVal, alookup, outlierBounds,
        quantileLinear, List.insertionSort, List.orderedInsert, Rat.floor_def',
        show Int.toNat 3 = 3 from rfl, List.map, List.filter, List.filterMap]
    simp only [removeOutliers, scenarioCRows, isOutlierIn, List.filter, List.any,
      lookupVal, alookup]
    norm_num [hb]

/-! ## Frontend — Layout.tsx aggregation function list (C7) -/

/-- From `src/frontend/src/components/Layout/Layout.tsx` lines 126–138: the
`aggregationFunctions` array offered for selection. -/
def aggregationFunctions : List String :=
  ["sum", "mean", "median", "min", "max", "count", "std", "var", "first", "last", "unique_count"]

/-- The eleven aggregation function names the spec lists (§3), in the spec's
order. -/
def specAggregationFunctions : List String :=
  ["sum", "mean", "median", "min", "max", "std", "var", "first", "last", "unique_count", "count"]

/-- C7: The set of aggregation functions the system offers for selection is
exactly the eleven functions named in the spec — no additional and no
missing function (the two lists are permutations of one another, and so
agree as sets). -/
theorem aggregationFunctions_perm_spec :
    aggregationFunctions.Perm specAggregationFunctions := by
  decide

/-! ## Frontend — RuleEngineManager.tsx rule selection (C9) -/

/-- Character-wise lower-casing: the model of JS
`String.prototype.toLowerCase` as invoked by `toggleRuleSelection`. -/
def jsToLower (s : String) : String :=
  ⟨s.data.map Char.toLower⟩

/-- The `selectedRules` state of RuleEngineManager: a JS object mapping
rule-type keys to arrays of selected rule names; an absent key reads as
undefined (`none`). -/
def SelState : Type := String → Option (List String)

/-- From `src/frontend/src/components/RuleEngine/RuleEngineManager.tsx`
lines 248–256, `toggleRuleSelection`:
`key = ruleType.toLowerCase()`;
`prev[key]?.includes(ruleName) ? prev[key].filter(n => n !== ruleName)
 : [...(prev[key] || []), ruleName]`, written back under `key` with the
other keys spread unchanged. -/
def toggleRuleSelection (prev : SelState) (ruleType ruleName : String) : SelState :=
  let key := jsToLower ruleType
  let newList :=
    match prev key with
    | some l => if ruleName ∈ l then l.filter (fun name => name ≠ ruleName) else l ++ [ruleName]
    | none => [ruleName]
  fun k => if k = key then some newList else prev k

/-- The initial `selectedRules` state of the component, with `r1` and `r2`
selected under `normalization`. -/
def sampleSelState : SelState := fun k =>
  if k = "normalization" then some ["r1", "r2"]
  else if k = "aggregation" then some []
  else if k = "flag" then some [] else none

/-- C9 counterexample: toggling `("normalization", "r1")` twice from a state
whose normalization selection is `["r1","r2"]` yields `["r2","r1"]` — the
name moves to the end of the list — so `selectedRules` is not restored to
its original value. -/
theorem toggle_twice_not_identity :
    toggleRuleSelection (toggleRuleSelection sampleSelState "normalization" "r1")
      "normalization" "r1" ≠ sampleSelState := by
  intro h
  have h2 := congrFun h "normalization"
  revert h2
  decide

theorem toggle_at_key (s : SelState) (t n : String) :
    toggleRuleSelection s t n (jsToLower t) =
      some (match s (jsToLower t) with
            | some l => if n ∈ l then l.filter (fun name => name ≠ n) else l ++ [n]
            | none => [n]) := by
  simp only [toggleRuleSelection, if_pos rfl]

theorem toggle_at_other (s : SelState) (t n k : String) (hk : k ≠ jsToLower t) :
    toggleRuleSelection s t n k = s k := by
  simp only [toggleRuleSelection]
  rw [if_neg hk]

/-- C9 (amended): with `key = ruleType.toLowerCase()`, a single application
of `toggleRuleSelection` changes only the selection list stored under `key`,
leaving every other rule type's list unchanged; applying it twice in
succession with the same rule type and name preserves the membership of
every name in that list (the selection as a set is restored), and restores
`selectedRules` exactly when the entry exists and the rule name was not
previously selected (toggling a name selected mid-list moves it to the end,
as the counterexample shows). -/
theorem toggleRuleSelection_locality (s : SelState) (t n : String) :
    (∀ k, k ≠ jsToLower t → toggleRuleSelection s t n k = s k) ∧
    (∀ l, s (jsToLower t) = some l →
      ∃ l', toggleRuleSelection (toggleRuleSelection s t n) t n (jsToLower t) = some l' ∧
        ∀ m, m ∈ l' ↔ m ∈ l) ∧
    (∀ l, s (jsToLower t) = some l → n ∉ l →
      toggleRuleSelection (toggleRuleSelection s t n) t n = s) := by
  refine ⟨fun k hk => toggle_at_other s t n k hk, ?_, ?_⟩
  · intro l hl
    by_cases hn : n ∈ l
    · have h1 : toggleRuleSelection s t n (jsToLower t) =
          some (l.filter (fun name => name ≠ n)) := by
        rw [toggle_at_key, hl]
        simp only [if_pos hn]
      have hn1 : n ∉ l.filter (fun name => name ≠ n) := by
        simp [List.mem_filter]
      refine ⟨l.filter (fun name => name ≠ n) ++ [n], ?_, ?_⟩
      · rw [toggle_at_key, h1]
        simp only [if_neg hn1]
      · intro m
        by_cases hm : m = n
        · subst hm
          simp [hn]
        · simp [List.mem_append, List.mem_filter, hm]
    · have h1 : toggleRuleSelection s t n (jsToLower t) = some (l ++ [n]) := by
        rw [toggle_at_key, hl]
        simp only [if_neg hn]
      have hn1 : n ∈ l ++ [n] := List.mem_append_right l (List.mem_singleton.mpr rfl)
      have hfl : l.filter (fun name => name ≠ n) = l :=
        List.filter_eq_self.mpr (fun a ha => decide_eq_true (fun hc => hn (hc ▸ ha)))
      refine ⟨l, ?_, fun m => Iff.rfl⟩
      rw [toggle_at_key, h1]
      simp only [if_pos hn1, List.filter_append, hfl]
      simp
  · intro l hl hn
    have h1 : toggleRuleSelection s t n (jsToLower t) = some (l ++ [n]) := by
      rw [toggle_at_key, hl]
      simp only [if_neg hn]
    have hn1 : n ∈ l ++ [n] := List.mem_append_right l (List.mem_singleton.mpr rfl)
    have hfl : l.filter (fun name => name ≠ n) = l :=
      List.filter_eq_self.mpr (fun a ha => decide_eq_true (fun hc => hn (hc ▸ ha)))
    funext k
    by_cases hk : k = jsToLower t
    · subst hk
      rw [toggle_at_key, h1]
      simp only [if_pos hn1, List.filter_append, hfl]
      rw [hl]
      simp
    · rw [toggle_at_other _ t n k hk, toggle_at_other s t n k hk]

theorem toggleRuleSelection_locality_witness :
    (toggleRuleSelection sampleSelState "normalization" "r1") "flag" =
        sampleSelState "flag" ∧
    toggleRuleSelection (toggleRuleSelection sampleSelState "normalization" "r3")
        "normalization" "r3" = sampleSelState :=
  ⟨(toggleRuleSelection_locality sampleSelState "normalization" "r1").1 "flag" (by decide),
   (toggleRuleSelection_locality sampleSelState "normalization" "r3").2.2 ["r1", "r2"]
     (by decide) (by decide)⟩

/-! ## Frontend — CsvChartViewer filters (C8) -/

/-- A CSV cell after `Papa.parse` with `dynamicTyping`: null, a number or a
string (an absent column reads as null, which the source treats identically
to undefined). -/
inductive CsvVal : Type
  | cNull : CsvVal
  | cNum : ℚ → CsvVal
  | cStr : String → CsvVal
  deriving DecidableEq, Repr

/-- A parsed CSV row. -/
abbrev CsvRow : Type := List (String × CsvVal)

/-- The `rowStr` of `filteredData`:
`rowValue !== null && rowValue !== undefined ? String(rowValue) : ""`. -/
def csvValStr : CsvVal → String
  | .cNull => ""
  | .cNum q => toString q
  | .cStr s => s

/-- From `src/unnamed/part_005` lines 409–419 (`CsvChartViewer.filteredData`):
the row predicate of `Object.entries(filters).every(...)` — an empty filter
value passes; otherwise the truthiness of `rowStr.toLowerCase()` is
returned, i.e. whether the lower-cased string is non-empty.  The filter text
itself is never compared against the row value. -/
def rowPassesFilters (filters : List (String × String)) (row : CsvRow) : Bool :=
  filters.all fun kv =>
    if kv.2 = "" then true
    else jsToLower (csvValStr ((alookup row kv.1).getD .cNull)) ≠ ""

/-- `csvData.filter((row) => ...)` of `CsvChartViewer.filteredData`. -/
def filteredData (filters : List (String × String)) (csvData : List CsvRow) : List CsvRow :=
  csvData.filter (rowPassesFilters filters)

theorem jsToLower_eq_empty (s : String) : jsToLower s = "" ↔ s = "" := by
  constructor
  · intro h
    have hd : s.data.map Char.toLower = [] := congrArg String.data h
    have : s.data = [] := List.map_eq_nil_iff.mp hd
    obtain ⟨data⟩ := s
    simp only at this
    rw [this]
  · intro h
    rw [h]
    rfl

/-- C8: a row is included in `filteredData` iff, for every filter entry with
a non-empty filter value, the row's value in that column converts to a
non-empty string; and since the filter text is never compared against the
row value, two different non-empty filter texts on the same column always
select the same rows. -/
theorem filteredData_ignores_filter_text :
    (∀ (filters : List (String × String)) (rows : List CsvRow) (r : CsvRow),
      r ∈ filteredData filters rows ↔
        r ∈ rows ∧ ∀ kv ∈ filters, kv.2 ≠ "" →
          csvValStr ((alookup r kv.1).getD .cNull) ≠ "") ∧
    (∀ (rows : List CsvRow) (pre post : List (String × String)) (k v1 v2 : String),
      v1 ≠ "" → v2 ≠ "" →
      filteredData (pre ++ (k, v1) :: post) rows =
        filteredData (pre ++ (k, v2) :: post) rows) := by
  constructor
  · intro filters rows r
    rw [filteredData, List.mem_filter]
    refine and_congr_right fun _ => ?_
    rw [rowPassesFilters, List.all_eq_true]
    refine forall_congr' fun kv => ?_
    refine imp_congr_right fun _ => ?_
    by_cases hv : kv.2 = ""
    · simp [hv]
    · simp only [hv, if_false, hv, ne_eq, not_false_iff, true_implies, decide_eq_true_eq]
      constructor
      · intro h hc
        exact h ((jsToLower_eq_empty _).mpr hc)
      · intro h hc
        exact h ((jsToLower_eq_empty _).mp hc)
  · intro rows pre post k v1 v2 hv1 hv2
    unfold filteredData
    apply List.filter_congr
    intro r _
    simp only [rowPassesFilters, List.all_append, List.all_cons, hv1, hv2, if_neg hv1,
      if_neg hv2]

/-- Two rows used to witness the filter semantics: one with text under
column `A`, one with a null there. -/
def sampleCsvRows : List CsvRow :=
  [[("A", .cStr "hello")], [("A", .cNull)]]

theorem filteredData_ignores_filter_text_witness :
    filteredData [("A", "x")] sampleCsvRows = filteredData [("A", "zzz")] sampleCsvRows ∧
    ([("A", CsvVal.cStr "hello")] ∈ filteredData [("A", "x")] sampleCsvRows ↔
      [("A", CsvVal.cStr "hello")] ∈ sampleCsvRows ∧
        ∀ kv ∈ [("A", "x")], kv.2 ≠ "" →
          csvValStr ((alookup [("A", CsvVal.cStr "hello")] kv.1).getD .cNull) ≠ "") :=
  ⟨filteredData_ignores_filter_text.2 sampleCsvRows [] [] "A" "x" "zzz"
      (by decide) (by decide),
   filteredData_ignores_filter_text.1 [("A", "x")] sampleCsvRows
      [("A", CsvVal.cStr "hello")]⟩

/-! ## Frontend — FinancialCharts processedData (C10) -/

/-- A JavaScript value as seen by `FinancialCharts`: null, undefined, a
number or a string. -/
inductive JsVal : Type
  | jNull : JsVal
  | jUndefined : JsVal
  | jNum : ℚ → JsVal
  | jStr : String → JsVal
  deriving DecidableEq, Repr

/-- A JS object: an ordered property map; absent keys read as undefined. -/
abbrev JsObj : Type := List (String × JsVal)

/-- `item[k]` on a JS object. -/
def getJs (o : JsObj) (k : String) : JsVal :=
  (alookup o k).getD .jUndefined

/-- Whether a value is null or undefined (the values `??` falls through). -/
def jsNullish : JsVal → Bool
  | .jNull => true
  | .jUndefined => true
  | _ => false

/-- JS `a ?? b`. -/
def coalesce (v fallback : JsVal) : JsVal :=
  if jsNullish v then fallback else v

/-- The natural number denoted by a digit string. -/
def digitsToNat (cs : List Char) : ℕ :=
  cs.foldl (fun acc c => acc * 10 + (c.toNat - '0'.toNat)) 0

/-- JS `parseFloat` on a string's characters: skip leading whitespace, an
optional sign, then decimal digits with an optional fraction part; `none`
(NaN) when no digit was consumed.  Exponent notation is not modelled; no
claim depends on which strings parse, only on the result being a number. -/
def parseFloatChars (cs : List Char) : Option ℚ :=
  let cs1 := cs.dropWhile (fun c => c = ' ' || c = '\t' || c = '\n' || c = '\r')
  let sc : ℚ × List Char :=
    match cs1 with
    | '-' :: t => (-1, t)
    | '+' :: t => (1, t)
    | _ => (1, cs1)
  let ip := sc.2.takeWhile Char.isDigit
  let rest := sc.2.dropWhile Char.isDigit
  let fp :=
    match rest with
    | '.' :: t => t.takeWhile Char.isDigit
    | _ => []
  if ip.isEmpty && fp.isEmpty then none
  else some (sc.1 * ((digitsToNat ip : ℚ) + (digitsToNat fp : ℚ) / (10 : ℚ) ^ fp.length))

/-- JS `parseFloat(value)`: a number parses to itself, a string via its
characters, null and undefined do not parse (NaN, `none`). -/
def parseFloatJs : JsVal → Option ℚ
  | .jNum q => some q
  | .jStr s => parseFloatChars s.data
  | _ => none

/-- From `src/unnamed/part_005` lines 80–89 (`FinancialCharts.processedData`),
one mapped element:
`{...item, [xKey]: item[xKey] ?? index, [yKey]: parseFloat(item[yKey]) || 0,
index}`.  `|| 0` turns NaN into 0, and 0 (the only falsy number here) into
0, so it is `Option.getD 0` on the parse result. -/
def processItem (xKey yKey : String) (idx : ℕ) (item : JsObj) : JsObj :=
  setEntry
    (setEntry
      (setEntry item xKey (coalesce (getJs item xKey) (.jNum idx)))
      yKey (.jNum ((parseFloatJs (getJs item yKey)).getD 0)))
    "index" (.jNum idx)

/-- `finalData.map((item, index) => ...)` with the running index. -/
def processedDataAux (xKey yKey : String) : ℕ → List JsObj → List JsObj
  | _, [] => []
  | idx, item :: rest =>
      processItem xKey yKey idx item :: processedDataAux xKey yKey (idx + 1) rest

/-- `FinancialCharts.processedData`: every element mapped with its index. -/
def processedData (xKey yKey : String) (data : List JsObj) : List JsObj :=
  processedDataAux xKey yKey 0 data

theorem jsNullish_coalesce_num (v : JsVal) (idx : ℕ) :
    jsNullish (coalesce v (.jNum idx)) = false := by
  cases v <;> simp [coalesce, jsNullish]

theorem processItem_safe (xKey yKey : String) (idx : ℕ) (item : JsObj) :
    (∃ q, getJs (processItem xKey yKey idx item) yKey = .jNum q) ∧
      jsNullish (getJs (processItem xKey yKey idx item) xKey) = false := by
  constructor
  · by_cases hyi : yKey = "index"
    · refine ⟨idx, ?_⟩
      unfold processItem getJs
      rw [hyi, alookup_setEntry_self]
      rfl
    · refine ⟨(parseFloatJs (getJs item yKey)).getD 0, ?_⟩
      unfold processItem getJs
      rw [alookup_setEntry_ne _ _ _ _ hyi, alookup_setEntry_self]
      rfl
  · by_cases hxi : xKey = "index"
    · unfold processItem getJs
      rw [hxi, alookup_setEntry_self]
      rfl
    · by_cases hxy : xKey = yKey
      · unfold processItem getJs
        rw [alookup_setEntry_ne _ _ _ _ hxi, hxy, alookup_setEntry_self]
        rfl
      · unfold processItem getJs
        rw [alookup_setEntry_ne _ _ _ _ hxi, alookup_setEntry_ne _ _ _ _ hxy,
          alookup_setEntry_self]
        exact jsNullish_coalesce_num _ idx

theorem processedDataAux_safe (xKey yKey : String) :
    ∀ (idx : ℕ) (data : List JsObj) (p : JsObj), p ∈ processedDataAux xKey yKey idx data →
      (∃ q, getJs p yKey = .jNum q) ∧ jsNullish (getJs p xKey) = false := by
  intro idx data
  induction data generalizing idx with
  | nil => intro p hp; simp [processedDataAux] at hp
  | cons item rest ih =>
      intro p hp
      rcases List.mem_cons.mp hp with heq | hmem
      · rw [heq]
        exact processItem_safe xKey yKey idx item
      · exact ih (idx + 1) p hmem

/-- C10: for every input data array and key choices, every element of
`processedData` has a numeric value at the y-axis key (values that do not
parse as a number, including null and non-numeric strings, become 0) and a
non-null, defined value at the x-axis key (null or undefined falls back to
the element's index), so the chart receives neither NaN nor undefined at
either key. -/
theorem processedData_safe (xKey yKey : String) (data : List JsObj) (p : JsObj)
    (hp : p ∈ processedData xKey yKey data) :
    (∃ q, getJs p yKey = .jNum q) ∧ jsNullish (getJs p xKey) = false :=
  processedDataAux_safe xKey yKey 0 data p hp

/-- An input element whose x value is null and whose y value is a
non-numeric string. -/
def sampleChartItem : JsObj := [("x", .jNull), ("y", .jStr "abc")]

theorem processedData_safe_witness :
    (∃ q, getJs [("x", JsVal.jNum 0), ("y", JsVal.jNum 0), ("index", JsVal.jNum 0)] "y" =
      .jNum q) ∧
    jsNullish (getJs [("x", JsVal.jNum 0), ("y", JsVal.jNum 0), ("index", JsVal.jNum 0)] "x") =
      false :=
  processedData_safe "x" "y" [sampleChartItem]
    [("x", JsVal.jNum 0), ("y", JsVal.jNum 0), ("index", JsVal.jNum 0)]
    (by decide)
